import Mathlib

set_option maxHeartbeats 1000000

/- Verification development for the fastzip extractor (src/extractor.go).

The Go source is shallowly embedded: paths are lists of characters
manipulated as the Go standard library does (filepath.Clean over absolute
paths, filepath.Join, filepath.Dir, strings.HasPrefix), the filesystem is
an association list from absolute paths to nodes, and the concurrent
Extract loop (errgroup plus a buffered limiter channel) is a small-step
transition system in which task completions interleave with the
orchestrating loop. External collaborators whose code lives outside this
repository (zipextra.Parse, the InfoZIPNewUnix field decoder, the platform
lchtimes / lchmod / lchown primitives, and archive content streams) are
abstracted as oracles supplying their outcomes per entry. -/

namespace Fastzip

/- ===== Path model =====

Go strings are byte strings; all paths handled here are ASCII, so a list
of characters is a faithful rendering. NewExtractor canonicalizes the
chroot with filepath.Abs, hence the chroot is assumed to be a clean
absolute path; filepath.Join cleans its result, and filepath.Abs is the
identity (and cannot fail) on an already clean absolute path. -/

/-- Raw path text, as the Go code manipulates strings. -/
abbrev Path := List Char

/-- Convert a string literal to a path. -/
def strP (s : String) : Path := s.toList

/-- Split on the separator character, accumulating the current segment. -/
def splitSegsAux : List Char → List Char → List (List Char)
  | [], acc => [acc.reverse]
  | c :: rest, acc =>
    if c = '/' then acc.reverse :: splitSegsAux rest []
    else splitSegsAux rest (c :: acc)

/-- Segments of a path, empty segments dropped (collapses repeated
separators, as filepath.Clean does). -/
def splitSegs (p : Path) : List (List Char) :=
  (splitSegsAux p []).filter (fun s => !s.isEmpty)

/-- One step of the lexical cleaning of filepath.Clean on a rooted path:
a dot segment is dropped, a dot-dot segment pops the previous segment
(and is dropped at the root), anything else is kept. The stack holds the
output segments most recent first. -/
def cleanStep (stack : List (List Char)) (seg : List Char) : List (List Char) :=
  if seg = ['.'] then stack
  else if seg = ['.', '.'] then stack.tail
  else seg :: stack

/-- Lexically clean a rooted segment list, mirroring filepath.Clean. -/
def cleanSegs (segs : List (List Char)) : List (List Char) :=
  (segs.foldl cleanStep []).reverse

/-- Render cleaned segments back into an absolute path string. -/
def renderAbs : List (List Char) → Path
  | [] => ['/']
  | segs => segs.foldl (fun acc seg => acc ++ '/' :: seg) []

/-- filepath.Clean restricted to absolute paths. -/
def cleanAbs (p : Path) : Path := renderAbs (cleanSegs (splitSegs p))

/-- filepath.Join of an absolute directory and a further (possibly
escaping) relative name: concatenate with a separator and clean, exactly
as Go does. -/
def joinPath (dir name : Path) : Path := cleanAbs (dir ++ '/' :: name)

/-- Cleaned segments of an absolute path. -/
def segsOf (p : Path) : List (List Char) := cleanSegs (splitSegs p)

/-- filepath.Dir of an absolute path: drop the last segment. -/
def parentPath (p : Path) : Path := renderAbs ((segsOf p).dropLast)

/-- strings.HasPrefix: hasPre pre s is true when pre is a plain string
prefix of s. This is exactly the comparison extractor.go line 109
performs, with no directory-boundary awareness. -/
def hasPre (pre s : Path) : Bool := List.isPrefixOf pre s

/-- Stated from the spec, for contrast with the check the code performs:
a boundary-aware containment test, true only when the resolved path is
the root itself or lies strictly below it past a separator. -/
def specWithinRoot (root p : Path) : Bool :=
  p == root || List.isPrefixOf (root ++ ['/']) p

/-- C1: the spec states the pre-extraction path check rejects, with a
boundary-aware comparison, any entry whose resolved path merely shares
the root as a string prefix, giving resolved path /root-evil for root
/root as the example to reject. The code (extractor.go line 109) instead
uses bare strings.HasPrefix: the entry name ../root-evil/pwned under
chroot /root resolves to /root-evil/pwned, which the check accepts even
though the path is outside the root, contradicting both the spec and the
package documentation that files can only be extracted to the chroot
directory (zip-slip). -/
theorem chroot_check_accepts_sibling_escape :
    joinPath (strP "/root") (strP "../root-evil/pwned") = strP "/root-evil/pwned" ∧
    hasPre (strP "/root") (joinPath (strP "/root") (strP "../root-evil/pwned")) = true ∧
    specWithinRoot (strP "/root") (joinPath (strP "/root") (strP "../root-evil/pwned")) = false := by
  refine ⟨by decide, by decide, by decide⟩

/- ===== Error values =====

Go error values relevant to the extractor. The os predicates IsNotExist
and IsExist pick out the first two constructors; injected environment
failures carry an opaque tag. -/

/-- Go error values produced or consumed by the extractor. -/
inductive GoErr where
  | notExist
  | exist
  | notEmpty
  | pathEscape (path root : Path)
  | ctxCanceled
  | io (tag : Nat)
deriving DecidableEq

/- ===== Filesystem model =====

The filesystem is an association list from absolute cleaned paths to
nodes. A logical clock stamps modification times: creating or removing a
child updates the modification time of the parent directory, which is
what makes the ordering of the directory metadata fixup pass observable. -/

/-- Kind of a materialized filesystem node. -/
inductive NodeKind where
  | dir
  | file
  | symlink
deriving DecidableEq

/-- A materialized filesystem node. -/
structure Node where
  kind : NodeKind
  perm : Nat
  mtime : Nat
  owner : Option (Int × Int)
deriving DecidableEq

/-- The filesystem: association list keyed by absolute path. -/
abbrev FS := List (Path × Node)

/-- Look up the node at a path. -/
def FS.find (fs : FS) (p : Path) : Option Node :=
  match fs with
  | [] => none
  | e :: rest => if e.1 = p then some e.2 else FS.find rest p

/-- Remove every entry at a path. -/
def FS.del (fs : FS) (p : Path) : FS :=
  fs.filter (fun e => !(e.1 == p))

/-- Replace or add the node at a path. -/
def FS.set (fs : FS) (p : Path) (n : Node) : FS :=
  (p, n) :: fs.del p

theorem FS.find_del_self (fs : FS) (p : Path) : (fs.del p).find p = none := by
  induction fs with
  | nil => simp [FS.del, FS.find]
  | cons e rest ih =>
    by_cases he : e.1 = p
    · have hb : (e.1 == p) = true := beq_iff_eq.mpr he
      simpa [FS.del, List.filter, hb] using ih
    · have hb : (e.1 == p) = false := beq_eq_false_iff_ne.mpr he
      simpa [FS.del, List.filter, hb, FS.find, he] using ih

theorem FS.find_del_ne (fs : FS) (p q : Path) (h : q ≠ p) :
    (fs.del p).find q = fs.find q := by
  induction fs with
  | nil => simp [FS.del]
  | cons e rest ih =>
    by_cases he : e.1 = p
    · have hb : (e.1 == p) = true := beq_iff_eq.mpr he
      have hq : e.1 ≠ q := by rw [he]; exact Ne.symm h
      simpa [FS.del, List.filter, hb, FS.find, hq] using ih
    · have hb : (e.1 == p) = false := beq_eq_false_iff_ne.mpr he
      by_cases hq : e.1 = q
      · simp [FS.del, List.filter, hb, FS.find, hq, beq_eq_false_iff_ne.mpr h]
      · simpa [FS.del, List.filter, hb, FS.find, hq] using ih

theorem FS.find_set_self (fs : FS) (p : Path) (n : Node) :
    (fs.set p n).find p = some n := by
  simp [FS.set, FS.find]

theorem FS.find_set_ne (fs : FS) (p q : Path) (n : Node) (h : q ≠ p) :
    (fs.set p n).find q = fs.find q := by
  simp only [FS.set, FS.find, if_neg (Ne.symm h)]
  exact FS.find_del_ne fs p q h

/-- Mutable world threaded through the extractor: the filesystem plus the
logical clock supplying the current time. -/
structure St where
  fs : FS
  clock : Nat
deriving DecidableEq

/-- True when some strict descendant of p exists in the filesystem (used
to make removal of a non-empty directory fail, as os.Remove does). -/
def segPre : List (List Char) → List (List Char) → Bool
  | [], _ => true
  | _ :: _, [] => false
  | a :: as, b :: bs => if a = b then segPre as bs else false

def hasChild (fs : FS) (p : Path) : Bool :=
  fs.any (fun e => segPre (segsOf p) (segsOf e.1) && !(e.1 == p))

/-- Update the modification time of the parent directory of p, if it is
materialized: creating or removing an entry inside a directory bumps the
directory modification time. -/
def touchParent (p : Path) (st : St) : St :=
  match st.fs.find (parentPath p) with
  | some n => { st with fs := st.fs.set (parentPath p) { n with mtime := st.clock } }
  | none => st

/-- Create (or overwrite) a node at p with the current clock as its
modification time, bumping the parent directory and the clock. -/
def createNode (p : Path) (kind : NodeKind) (perm : Nat) (st : St) : St :=
  let st1 := { st with fs := st.fs.set p ⟨kind, perm, st.clock, none⟩ }
  let st2 := touchParent p st1
  { st2 with clock := st2.clock + 1 }

/-- os.Remove: fails with a not-exist error when nothing is at p, fails
with a not-empty error on a non-empty directory, otherwise removes the
node and bumps the parent. -/
def osRemove (p : Path) (st : St) : Option GoErr × St :=
  match st.fs.find p with
  | none => (some .notExist, st)
  | some n =>
    if n.kind = .dir ∧ hasChild st.fs p then (some .notEmpty, st)
    else
      let st1 := { st with fs := st.fs.del p }
      let st2 := touchParent p st1
      (none, { st2 with clock := st2.clock + 1 })

/-- os.Mkdir: fails with an exist error when a node is already at p,
otherwise creates a directory node (the parent is guaranteed by the
MkdirAll the loop runs first). -/
def osMkdir (p : Path) (perm : Nat) (st : St) : Option GoErr × St :=
  match st.fs.find p with
  | some _ => (some .exist, st)
  | none => (none, createNode p .dir perm st)

/-- os.MkdirAll with permissive mode: create every missing ancestor of p,
root first, then p itself if missing; existing directories are left
untouched. -/
def mkdirAll (p : Path) (st : St) : St :=
  (List.range ((segsOf p).length + 1)).foldl
    (fun acc k =>
      let q := renderAbs ((segsOf p).take k)
      match acc.fs.find q with
      | some _ => acc
      | none => createNode q .dir 511 acc)
    st

/- ===== Archive entries and external collaborators ===== -/

/-- File type carried by the mode bits of an archive entry. Go mode words
carry at most one of these type bits; permission bits are kept separately
in ZipEntry.perm. -/
inductive ModeType where
  | regular
  | dir
  | symlink
  | namedPipe
  | socket
  | device
  | charDevice
  | irregular
deriving DecidableEq

/-- Modelled from the spec: the irregularModes mask is defined in a file
of this repository that is not among the provided sources. The spec says
that any entry whose type is not file, symlink or directory is silently
skipped, so the mask holds every type bit other than the directory and
symlink bits. -/
def isIrregularMode : ModeType → Bool
  | .namedPipe => true
  | .socket => true
  | .device => true
  | .charDevice => true
  | .irregular => true
  | .regular => false
  | .dir => false
  | .symlink => false

instance exceptDecEq {ε α : Type} [DecidableEq ε] [DecidableEq α] :
    DecidableEq (Except ε α)
  | .ok a, .ok b =>
    if h : a = b then .isTrue (by rw [h])
    else .isFalse (by intro hh; cases hh; exact h rfl)
  | .ok _, .error _ => .isFalse (by intro hh; cases hh)
  | .error _, .ok _ => .isFalse (by intro hh; cases hh)
  | .error a, .error b =>
    if h : a = b then .isTrue (by rw [h])
    else .isFalse (by intro hh; cases hh; exact h rfl)

/-- Result of decoding the InfoZIP new-unix extra field: the uid and gid,
or a decode error (zipextra is an external collaborator, so only the
shape of its result is modelled). -/
structure UnixFieldData where
  parsed : Except GoErr (Int × Int)
deriving DecidableEq

/-- Result of zipextra.Parse: at most the unix ownership field matters to
the extractor. -/
structure ExtraFields where
  unix : Option UnixFieldData
deriving DecidableEq

/-- One archive entry: name (archive-relative, attacker controlled), type
bits, permission bits, archived modification time, raw extra bytes. -/
structure ZipEntry where
  name : Path
  modeType : ModeType
  perm : Nat
  modTime : Nat
  extra : List Nat
deriving DecidableEq

/-- Outcomes of the external collaborators, per entry index (for the
platform primitives and content streams) or per raw byte string (for the
extra-field parser). A none outcome is success. -/
structure Oracle where
  parseExtra : List Nat → Except GoErr ExtraFields
  mkdirAllErr : Nat → Option GoErr
  openErr : Nat → Option GoErr
  writeErr : Nat → Option GoErr
  timesErr : Nat → Option GoErr
  chmodErr : Nat → Option GoErr
  chownErr : Nat → Option GoErr

/-- The fixed data of one Extract call: the archive entry list, the
canonicalized chroot, the concurrency limit (options.concurrency, which
NewExtractor defaults to the logical CPU count), the collaborator oracle
and the optional ChownErrorHandler hook. -/
structure Env where
  entries : List ZipEntry
  chroot : Path
  conc : Nat
  oracle : Oracle
  hook : Option (Path → GoErr → Option GoErr)

/-- Entry at index i, when in range. -/
def Env.entryAt (env : Env) (i : Nat) : Option ZipEntry := env.entries[i]?

/-- Resolved output path of an entry: filepath.Abs(filepath.Join(chroot,
name)), which on the already absolute join result is just the join. -/
def Env.pathOf (env : Env) (f : ZipEntry) : Path := joinPath env.chroot f.name

/- ===== Platform metadata primitives =====

lchtimes, lchmod and lchown live in platform files of this repository
outside the provided sources; the extractor only propagates their error
results, so they are modelled as oracle-driven updates of the single node
at the given path (they never touch the parent directory timestamp). -/

/-- Common shape of the three primitives: the oracle may fail the call, a
missing node fails with a not-exist error, otherwise the node at p is
updated in place (never its parent). -/
def nodeOp (err : Option GoErr) (p : Path) (upd : Node → Node) (st : St) :
    Option GoErr × St :=
  match err with
  | some e => (some e, st)
  | none =>
    match st.fs.find p with
    | none => (some .notExist, st)
    | some n => (none, { st with fs := st.fs.set p (upd n) })

def lchtimes (env : Env) (i : Nat) (p : Path) (modTime : Nat) (st : St) :
    Option GoErr × St :=
  nodeOp (env.oracle.timesErr i) p (fun n => { n with mtime := modTime }) st

def lchmod (env : Env) (i : Nat) (p : Path) (perm : Nat) (st : St) :
    Option GoErr × St :=
  nodeOp (env.oracle.chmodErr i) p (fun n => { n with perm := perm }) st

def lchown (env : Env) (i : Nat) (p : Path) (uid gid : Int) (st : St) :
    Option GoErr × St :=
  nodeOp (env.oracle.chownErr i) p (fun n => { n with owner := some (uid, gid) }) st

/- ===== updateFileMetadata (extractor.go lines 232-265) =====

A Go subtlety is mirrored faithfully here: the function has a named
return err, but the err in the statement if err := lchown(path, ...) is
scoped to that if. When the chown fails and no ChownErrorHandler is
registered, nothing assigns the named err, the function falls through to
the naked return, and the chown failure is silently dropped. -/

def updateFileMetadata (env : Env) (i : Nat) (f : ZipEntry) (p : Path) (st : St) :
    Option GoErr × St :=
  match env.oracle.parseExtra f.extra with
  | .error e => (some e, st)
  | .ok fields =>
    match lchtimes env i p f.modTime st with
    | (some e, st1) => (some e, st1)
    | (none, st1) =>
      match lchmod env i p f.perm st1 with
      | (some e, st2) => (some e, st2)
      | (none, st2) =>
        match fields.unix with
        | none => (none, st2)
        | some u =>
          match u.parsed with
          | .error e => (some e, st2)
          | .ok (uid, gid) =>
            match lchown env i p uid gid st2 with
            | (none, st3) => (none, st3)
            | (some e, st3) =>
              match env.hook with
              | none => (none, st3)
              | some h =>
                match h f.name e with
                | none => (none, st3)
                | some e2 => (some e2, st3)

/- ===== createDirectory, createSymlink, createFile ===== -/

/-- createDirectory (extractor.go lines 173-179): os.Mkdir with the entry
permission bits, an IsExist error downgraded to success. -/
def createDirectory (f : ZipEntry) (p : Path) (st : St) : Option GoErr × St :=
  match osMkdir p f.perm st with
  | (some e, st1) => if e = .exist then (none, st1) else (some e, st1)
  | (none, st1) => (none, st1)

/-- createSymlink (extractor.go lines 181-202): remove any pre-existing
node (an IsNotExist error tolerated), read the link target from the entry
content (openErr covers file.Open and ReadAll), create the link, then
restore its metadata. -/
def createSymlink (env : Env) (i : Nat) (f : ZipEntry) (p : Path) (st : St) :
    Option GoErr × St :=
  match osRemove p st with
  | (some e, st1) =>
    if e = .notExist then
      match env.oracle.openErr i with
      | some e2 => (some e2, st1)
      | none =>
        match st1.fs.find p with
        | some _ => (some .exist, st1)
        | none =>
          let st2 := createNode p .symlink 511 st1
          updateFileMetadata env i f p st2
    else (some e, st1)
  | (none, st1) =>
    match env.oracle.openErr i with
    | some e2 => (some e2, st1)
    | none =>
      match st1.fs.find p with
      | some _ => (some .exist, st1)
      | none =>
        let st2 := createNode p .symlink 511 st1
        updateFileMetadata env i f p st2

/-- createFile (extractor.go lines 204-230): remove any pre-existing node
(IsNotExist tolerated), open the entry content (openErr), create the
destination with O_CREATE and the entry mode, stream the bytes through
the pooled writer and flush (writeErr, which strikes after the node
exists, leaving a partial file behind). -/
def createFile (env : Env) (i : Nat) (f : ZipEntry) (p : Path) (st : St) :
    Option GoErr × St :=
  match osRemove p st with
  | (some e, st1) =>
    if e = .notExist then
      match env.oracle.openErr i with
      | some e2 => (some e2, st1)
      | none =>
        let st2 := createNode p .file f.perm st1
        match env.oracle.writeErr i with
        | some e3 => (some e3, st2)
        | none => (none, st2)
    else (some e, st1)
  | (none, st1) =>
    match env.oracle.openErr i with
    | some e2 => (some e2, st1)
    | none =>
      let st2 := createNode p .file f.perm st1
      match env.oracle.writeErr i with
      | some e3 => (some e3, st2)
      | none => (none, st2)

/-- Body of one scheduled file task (the closure passed to wg.Go at
extractor.go lines 134-141): createFile, then updateFileMetadata on
success; the returned value is what the errgroup records. -/
def taskBody (env : Env) (i : Nat) (st : St) : Option GoErr × St :=
  match env.entryAt i with
  | none => (none, st)
  | some f =>
    match createFile env i f (env.pathOf f) st with
    | (some e, st1) => (some e, st1)
    | (none, st1) => updateFileMetadata env i f (env.pathOf f) st1

/- ===== The Extract transition system (extractor.go lines 88-171) =====

Extract runs an orchestrating loop that classifies entries, creates
directories and symlinks inline, and submits file bodies to an errgroup
behind a buffered limiter channel. The embedding is a small-step system:
one step is either one full iteration of the orchestrating loop (or of
the later directory fixup loop), the join, the completion of one in-flight
task, or the final deferred wg.Wait. Task effects are linearized at the
completion step. The groupErr field is the first error recorded by the
errgroup, whose attached context is cancelled exactly when groupErr is
set; the finishing phase carries the synchronous return value while the
deferred wg.Wait (extractor.go lines 92-96) is still pending, and that
deferred call replaces the synchronous value with the errgroup error
whenever the latter is non-nil. -/

/-- Control location of the orchestrator. -/
inductive Phase where
  | loop (i : Nat)
  | joining
  | dirPass (j : Nat)
  | finishing (e : Option GoErr)
  | done (res : Option GoErr)
deriving DecidableEq

/-- Global state of one Extract call. -/
structure Cfg where
  phase : Phase
  running : List Nat
  groupErr : Option GoErr
  st : St
deriving DecidableEq

/-- First-error-wins combination (how the deferred wg.Wait merges the
errgroup error with the synchronous return value). -/
def orElseO (a b : Option GoErr) : Option GoErr :=
  match a with
  | some e => some e
  | none => b

/-- The starting configuration, over an arbitrary pre-existing
filesystem. -/
def initCfg (st0 : St) : Cfg :=
  { phase := .loop 0, running := [], groupErr := none, st := st0 }

/-- One full iteration of the loop at extractor.go lines 98-146, handling
entry i: skip irregular modes; resolve the path; the HasPrefix chroot
check; MkdirAll on the parent; the select on ctx.Done (observed as
groupErr being set); then create a directory or symlink inline, or
acquire a limiter slot and submit a file task. Returns none exactly when
the iteration is blocked on a full limiter (submission back-pressure). -/
def loopIter (env : Env) (cfg : Cfg) (i : Nat) : Option Cfg :=
  match env.entryAt i with
  | none => some { cfg with phase := .joining }
  | some f =>
    if isIrregularMode f.modeType then
      some { cfg with phase := .loop (i + 1) }
    else
      if hasPre env.chroot (env.pathOf f) then
        match env.oracle.mkdirAllErr i with
        | some e => some { cfg with phase := .finishing (some e) }
        | none =>
          if cfg.groupErr.isSome then
            some { cfg with
                   phase := .finishing (some .ctxCanceled)
                   st := mkdirAll (parentPath (env.pathOf f)) cfg.st }
          else if f.modeType = .dir then
            match createDirectory f (env.pathOf f)
                (mkdirAll (parentPath (env.pathOf f)) cfg.st) with
            | (none, st2) => some { cfg with phase := .loop (i + 1), st := st2 }
            | (some e, st2) => some { cfg with phase := .finishing (some e), st := st2 }
          else if f.modeType = .symlink then
            match createSymlink env i f (env.pathOf f)
                (mkdirAll (parentPath (env.pathOf f)) cfg.st) with
            | (none, st2) => some { cfg with phase := .loop (i + 1), st := st2 }
            | (some e, st2) => some { cfg with phase := .finishing (some e), st := st2 }
          else
            if cfg.running.length < env.conc then
              some { cfg with
                     phase := .loop (i + 1)
                     running := i :: cfg.running
                     st := mkdirAll (parentPath (env.pathOf f)) cfg.st }
            else none
      else
        some { cfg with phase := .finishing (some (.pathEscape (env.pathOf f) env.chroot)) }

/-- The wg.Wait at extractor.go line 148, enabled once every task has
completed: a recorded errgroup error is returned (entering the deferred
wait), otherwise the directory fixup pass starts. -/
def joinNext (cfg : Cfg) : Cfg :=
  match cfg.groupErr with
  | some e => { cfg with phase := .finishing (some e) }
  | none => { cfg with phase := .dirPass 0 }

/-- One iteration of the directory metadata pass at extractor.go lines
154-168, handling entry j: non-directories are skipped, directories get
updateFileMetadata, whose failure is returned. -/
def dirIter (env : Env) (cfg : Cfg) (j : Nat) : Cfg :=
  match env.entryAt j with
  | none => { cfg with phase := .finishing none }
  | some f =>
    if f.modeType = .dir then
      match updateFileMetadata env j f (env.pathOf f) cfg.st with
      | (none, st1) => { cfg with phase := .dirPass (j + 1), st := st1 }
      | (some e, st1) => { cfg with phase := .finishing (some e), st := st1 }
    else { cfg with phase := .dirPass (j + 1) }

/-- Completion of the in-flight task t: its body runs to completion, its
limiter slot is released, and the errgroup records its error if it is the
first (cancelling the context). -/
def completeTask (env : Env) (cfg : Cfg) (t : Nat) : Cfg :=
  { cfg with
    running := cfg.running.erase t
    groupErr := orElseO cfg.groupErr (taskBody env t cfg.st).1
    st := (taskBody env t cfg.st).2 }

/-- The small-step relation of one Extract call. -/
inductive Step (env : Env) : Cfg → Cfg → Prop where
  | orch (cfg : Cfg) (i : Nat) (cfg2 : Cfg) :
      cfg.phase = .loop i → loopIter env cfg i = some cfg2 → Step env cfg cfg2
  | task (cfg : Cfg) (t : Nat) :
      t ∈ cfg.running → Step env cfg (completeTask env cfg t)
  | join (cfg : Cfg) :
      cfg.phase = .joining → cfg.running = [] → Step env cfg (joinNext cfg)
  | dirstep (cfg : Cfg) (j : Nat) :
      cfg.phase = .dirPass j → Step env cfg (dirIter env cfg j)
  | finish (cfg : Cfg) (e : Option GoErr) :
      cfg.phase = .finishing e → cfg.running = [] →
      Step env cfg { cfg with phase := .done (orElseO cfg.groupErr e) }

/-- Reachability from the start of Extract over a given filesystem. -/
def Reach (env : Env) (st0 : St) (cfg : Cfg) : Prop :=
  Relation.ReflTransGen (Step env) (initCfg st0) cfg

/-- Invariance principle: a property holding at the start and preserved
by every step holds at every reachable configuration. -/
theorem reach_invariant (env : Env) (st0 : St) (Inv : Cfg → Prop)
    (h0 : Inv (initCfg st0))
    (hstep : ∀ c c2, Inv c → Step env c c2 → Inv c2) :
    ∀ cfg, Reach env st0 cfg → Inv cfg := by
  intro cfg hr
  induction hr with
  | refl => exact h0
  | tail _ hs ih => exact hstep _ _ ih hs

/- ===== Schedules =====

A schedule is a word over two actions: tick advances the orchestrator at
its current control location (a no-op when it is blocked), tcomp
completes the oldest in-flight task (a no-op when none is running).
Running a schedule yields a reachable configuration, which the concrete
executions below use. -/

inductive Act where
  | tick
  | tcomp

/-- The configuration after one action, or none when the action is not
enabled. -/
def nextBy (env : Env) (cfg : Cfg) : Act → Option Cfg
  | .tcomp =>
    match cfg.running with
    | t :: _ => some (completeTask env cfg t)
    | [] => none
  | .tick =>
    match cfg.phase with
    | .loop i => loopIter env cfg i
    | .joining =>
      match cfg.running with
      | [] => some (joinNext cfg)
      | _ :: _ => none
    | .dirPass j => some (dirIter env cfg j)
    | .finishing e =>
      match cfg.running with
      | [] => some { cfg with phase := .done (orElseO cfg.groupErr e) }
      | _ :: _ => none
    | .done _ => none

/-- Run a schedule, ignoring actions that are not enabled. -/
def runSched (env : Env) : List Act → Cfg → Cfg
  | [], cfg => cfg
  | a :: rest, cfg =>
    match nextBy env cfg a with
    | some cfg2 => runSched env rest cfg2
    | none => runSched env rest cfg

theorem nextBy_step (env : Env) (cfg cfg2 : Cfg) (a : Act)
    (h : nextBy env cfg a = some cfg2) : Step env cfg cfg2 := by
  cases a with
  | tcomp =>
    simp only [nextBy] at h
    cases hr : cfg.running with
    | nil => rw [hr] at h; cases h
    | cons t rest =>
      rw [hr] at h
      cases h
      exact Step.task cfg t (by rw [hr]; exact List.mem_cons_self t rest)
  | tick =>
    simp only [nextBy] at h
    cases hp : cfg.phase with
    | loop i =>
      rw [hp] at h
      exact Step.orch cfg i cfg2 hp h
    | joining =>
      rw [hp] at h
      cases hr : cfg.running with
      | nil => rw [hr] at h; cases h; exact Step.join cfg hp hr
      | cons t rest => rw [hr] at h; cases h
    | dirPass j =>
      rw [hp] at h
      cases h
      exact Step.dirstep cfg j hp
    | finishing e =>
      rw [hp] at h
      cases hr : cfg.running with
      | nil =>
        rw [hr] at h; cases h
        have hs := @Step.finish env cfg e hp hr
        rw [hr] at hs
        exact hs
      | cons t rest => rw [hr] at h; cases h
    | done r =>
      rw [hp] at h
      cases h

theorem runSched_reach (env : Env) (acts : List Act) (cfg : Cfg) :
    Relation.ReflTransGen (Step env) cfg (runSched env acts cfg) := by
  induction acts generalizing cfg with
  | nil => exact Relation.ReflTransGen.refl
  | cons a rest ih =>
    cases h : nextBy env cfg a with
    | none => simpa [runSched, h] using ih cfg
    | some cfg2 =>
      have h1 : Relation.ReflTransGen (Step env) cfg cfg2 :=
        Relation.ReflTransGen.single (nextBy_step env cfg cfg2 a h)
      have h2 := ih cfg2
      simpa [runSched, h] using h1.trans h2

/-- Reachability of a scheduled execution. -/
theorem runSched_reach_init (env : Env) (acts : List Act) (st0 : St) :
    Reach env st0 (runSched env acts (initCfg st0)) :=
  runSched_reach env acts (initCfg st0)

/- ===== Structural lemmas about the per-entry operations ===== -/

theorem nodeOp_find_other (err : Option GoErr) (p : Path) (upd : Node → Node)
    (st : St) (q : Path) (hq : q ≠ p) :
    ((nodeOp err p upd st).2).fs.find q = st.fs.find q := by
  unfold nodeOp
  cases err with
  | some e => rfl
  | none =>
    cases hf : st.fs.find p with
    | none => rfl
    | some n => simp [FS.find_set_ne _ _ _ _ hq]

theorem nodeOp_err (err : Option GoErr) (p : Path) (upd : Node → Node) (st : St)
    (e : GoErr) (h : (nodeOp err p upd st).1 = some e) :
    err = some e ∨ e = .notExist := by
  unfold nodeOp at h
  cases err with
  | some e2 => simp at h; exact Or.inl (by rw [h])
  | none =>
    cases hf : st.fs.find p with
    | none => rw [hf] at h; simp at h; exact Or.inr h.symm
    | some n => rw [hf] at h; cases h

theorem nodeOp_err_st (err : Option GoErr) (p : Path) (upd : Node → Node) (st : St)
    (e : GoErr) (st2 : St) (h : nodeOp err p upd st = (some e, st2)) : st2 = st := by
  unfold nodeOp at h
  cases err with
  | some e2 => cases h; rfl
  | none =>
    cases hf : st.fs.find p with
    | none => rw [hf] at h; cases h; rfl
    | some n => rw [hf] at h; cases h

theorem nodeOp_ok_src (err : Option GoErr) (p : Path) (upd : Node → Node) (st : St)
    (h : (nodeOp err p upd st).1 = none) : ∃ n, st.fs.find p = some n := by
  unfold nodeOp at h
  cases err with
  | some e => cases h
  | none =>
    cases hf : st.fs.find p with
    | none => rw [hf] at h; cases h
    | some n => exact ⟨n, rfl⟩

theorem nodeOp_ok_found (err : Option GoErr) (p : Path) (upd : Node → Node) (st : St)
    (n0 : Node) (hf : st.fs.find p = some n0) (h : (nodeOp err p upd st).1 = none) :
    ((nodeOp err p upd st).2).fs.find p = some (upd n0) := by
  unfold nodeOp at h ⊢
  cases err with
  | some e => cases h
  | none => rw [hf] at h ⊢; simp [FS.find_set_self]

/-- createDirectory never fails in this model: os.Mkdir only reports the
already-exists condition here, which createDirectory downgrades to
success. -/
theorem createDirectory_ok (f : ZipEntry) (p : Path) (st : St) :
    (createDirectory f p st).1 = none := by
  unfold createDirectory osMkdir
  cases hf : st.fs.find p with
  | some n => rfl
  | none => rfl

/-- createDirectory leaves the filesystem untouched when a node already
occupies the destination (the already-exists downgrade). -/
theorem createDirectory_exists (f : ZipEntry) (p : Path) (st : St) (n : Node)
    (hf : st.fs.find p = some n) : createDirectory f p st = (none, st) := by
  unfold createDirectory osMkdir
  rw [hf]
  rfl

theorem osRemove_err (p : Path) (st : St) (e : GoErr)
    (h : (osRemove p st).1 = some e) : e = .notExist ∨ e = .notEmpty := by
  unfold osRemove at h
  split at h
  next heq => simp at h; exact Or.inl h.symm
  next n heq =>
    split at h
    · simp at h; exact Or.inr h.symm
    · simp at h

theorem osRemove_notExist_find (p : Path) (st : St) (st1 : St)
    (h : osRemove p st = (some .notExist, st1)) : st1.fs.find p = none := by
  unfold osRemove at h
  split at h
  next heq => cases h; exact heq
  next n heq =>
    split at h
    · simp at h
    · simp at h

theorem osRemove_ok_find (p : Path) (st : St) (st1 : St)
    (h : osRemove p st = (none, st1)) : st1.fs.find p = none := by
  unfold osRemove at h
  split at h
  next heq => simp at h
  next n heq =>
    split at h
    · simp at h
    · cases h
      show (touchParent p { st with fs := st.fs.del p }).fs.find p = none
      unfold touchParent
      split
      next pn hpp =>
        by_cases hpe : p = parentPath p
        · rw [← hpe] at hpp
          rw [show ({ st with fs := st.fs.del p } : St).fs = st.fs.del p from rfl] at hpp
          rw [FS.find_del_self st.fs p] at hpp
          cases hpp
        · show ((st.fs.del p).set (parentPath p) _).find p = none
          rw [FS.find_set_ne _ _ _ _ hpe]
          exact FS.find_del_self st.fs p
      next hpp => exact FS.find_del_self st.fs p

theorem lchtimes_find_other (env : Env) (i : Nat) (p : Path) (m : Nat) (st : St)
    (q : Path) (hq : q ≠ p) :
    ((lchtimes env i p m st).2).fs.find q = st.fs.find q :=
  nodeOp_find_other _ p _ st q hq

theorem lchmod_find_other (env : Env) (i : Nat) (p : Path) (m : Nat) (st : St)
    (q : Path) (hq : q ≠ p) :
    ((lchmod env i p m st).2).fs.find q = st.fs.find q :=
  nodeOp_find_other _ p _ st q hq

theorem lchown_find_other (env : Env) (i : Nat) (p : Path) (uid gid : Int) (st : St)
    (q : Path) (hq : q ≠ p) :
    ((lchown env i p uid gid st).2).fs.find q = st.fs.find q :=
  nodeOp_find_other _ p _ st q hq

theorem lchtimes_ok_src (env : Env) (i : Nat) (p : Path) (m : Nat) (st : St)
    (h : (lchtimes env i p m st).1 = none) : ∃ n, st.fs.find p = some n :=
  nodeOp_ok_src _ p _ st h

theorem lchtimes_ok_found (env : Env) (i : Nat) (p : Path) (m : Nat) (st : St)
    (n0 : Node) (hf : st.fs.find p = some n0) (h : (lchtimes env i p m st).1 = none) :
    ((lchtimes env i p m st).2).fs.find p = some { n0 with mtime := m } :=
  nodeOp_ok_found _ p _ st n0 hf h

theorem lchmod_ok_found (env : Env) (i : Nat) (p : Path) (m : Nat) (st : St)
    (n0 : Node) (hf : st.fs.find p = some n0) (h : (lchmod env i p m st).1 = none) :
    ((lchmod env i p m st).2).fs.find p = some { n0 with perm := m } :=
  nodeOp_ok_found _ p _ st n0 hf h

theorem lchown_ok_found (env : Env) (i : Nat) (p : Path) (uid gid : Int) (st : St)
    (n0 : Node) (hf : st.fs.find p = some n0) (h : (lchown env i p uid gid st).1 = none) :
    ((lchown env i p uid gid st).2).fs.find p = some { n0 with owner := some (uid, gid) } :=
  nodeOp_ok_found _ p _ st n0 hf h

theorem lchtimes_err (env : Env) (i : Nat) (p : Path) (m : Nat) (st : St) (e : GoErr)
    (h : (lchtimes env i p m st).1 = some e) :
    env.oracle.timesErr i = some e ∨ e = .notExist :=
  nodeOp_err _ p _ st e h

theorem lchmod_err (env : Env) (i : Nat) (p : Path) (m : Nat) (st : St) (e : GoErr)
    (h : (lchmod env i p m st).1 = some e) :
    env.oracle.chmodErr i = some e ∨ e = .notExist :=
  nodeOp_err _ p _ st e h

theorem lchown_err_st (env : Env) (i : Nat) (p : Path) (uid gid : Int) (st : St)
    (e : GoErr) (st2 : St) (h : lchown env i p uid gid st = (some e, st2)) : st2 = st :=
  nodeOp_err_st _ p _ st e st2 h

/-- updateFileMetadata returns a parse failure of the raw extra bytes as
is, before touching the filesystem at all (extractor.go lines 233-236). -/
theorem updateMeta_parse_err (env : Env) (i : Nat) (f : ZipEntry) (p : Path)
    (st : St) (e : GoErr) (h : env.oracle.parseExtra f.extra = .error e) :
    updateFileMetadata env i f p st = (some e, st) := by
  unfold updateFileMetadata
  rw [h]

/-- updateFileMetadata only ever modifies the node at its own path. -/
theorem updateMeta_find_other (env : Env) (i : Nat) (f : ZipEntry) (p : Path)
    (st : St) (q : Path) (hq : q ≠ p) :
    ((updateFileMetadata env i f p st).2).fs.find q = st.fs.find q := by
  unfold updateFileMetadata
  split
  · rfl
  next fields hpe =>
    split
    next e st1 hm1 =>
      have h1 := lchtimes_find_other env i p f.modTime st q hq
      rw [hm1] at h1
      exact h1
    next st1 hm1 =>
      have h1 := lchtimes_find_other env i p f.modTime st q hq
      rw [hm1] at h1
      split
      next e st2 hm2 =>
        have h2 := lchmod_find_other env i p f.perm st1 q hq
        rw [hm2] at h2
        exact h2.trans h1
      next st2 hm2 =>
        have h2 := lchmod_find_other env i p f.perm st1 q hq
        rw [hm2] at h2
        split
        · exact h2.trans h1
        next u hu =>
          split
          next e hp2 => exact h2.trans h1
          next uid gid hp2 =>
            split
            next st3 hm3 =>
              have h3 := lchown_find_other env i p uid gid st2 q hq
              rw [hm3] at h3
              exact (h3.trans h2).trans h1
            next e st3 hm3 =>
              have h3 := lchown_find_other env i p uid gid st2 q hq
              rw [hm3] at h3
              split
              · exact (h3.trans h2).trans h1
              next hk =>
                split
                · exact (h3.trans h2).trans h1
                · exact (h3.trans h2).trans h1

/-- A successful updateFileMetadata leaves the node at its path carrying
the archived modification time (the lchtimes write, preserved by the
later chmod and chown updates). -/
theorem updateMeta_ok_mtime (env : Env) (i : Nat) (f : ZipEntry) (p : Path)
    (st st2 : St) (h : updateFileMetadata env i f p st = (none, st2)) :
    ∃ n, st2.fs.find p = some n ∧ n.mtime = f.modTime := by
  unfold updateFileMetadata at h
  split at h
  · simp at h
  next fields hpe =>
    split at h
    next e st1 hm1 => simp at h
    next st1 hm1 =>
      have hsrc := lchtimes_ok_src env i p f.modTime st (by rw [hm1])
      obtain ⟨n0, hn0⟩ := hsrc
      have hf1 := lchtimes_ok_found env i p f.modTime st n0 hn0 (by rw [hm1])
      rw [hm1] at hf1
      split at h
      next e st2a hm2 => simp at h
      next st2a hm2 =>
        have hf2 := lchmod_ok_found env i p f.perm st1 _ hf1 (by rw [hm2])
        rw [hm2] at hf2
        split at h
        · cases h
          exact ⟨_, hf2, rfl⟩
        next u hu =>
          split at h
          next e hp2 => simp at h
          next uid gid hp2 =>
            split at h
            next st3 hm3 =>
              have hf3 := lchown_ok_found env i p uid gid st2a _ hf2 (by rw [hm3])
              rw [hm3] at hf3
              cases h
              exact ⟨_, hf3, rfl⟩
            next e st3 hm3 =>
              have hst : st3 = st2a := lchown_err_st env i p uid gid st2a e st3 hm3
              split at h
              · cases h
                rw [hst]
                exact ⟨_, hf2, rfl⟩
              next hk =>
                split at h
                · cases h
                  rw [hst]
                  exact ⟨_, hf2, rfl⟩
                · simp at h

/- ===== The extractor never fails on already-exists ===== -/

/-- The environment never injects an already-exists failure itself: the
platform primitives, the parser and the hook do not produce one (they
report permission or I/O conditions, not EEXIST). Under this hypothesis
every exist error observed would have to come from the extractor's own
creation calls. -/
def NoExistEnv (env : Env) : Prop :=
  (∀ i, env.oracle.mkdirAllErr i ≠ some .exist) ∧
  (∀ i, env.oracle.openErr i ≠ some .exist) ∧
  (∀ i, env.oracle.writeErr i ≠ some .exist) ∧
  (∀ i, env.oracle.timesErr i ≠ some .exist) ∧
  (∀ i, env.oracle.chmodErr i ≠ some .exist) ∧
  (∀ i, env.oracle.chownErr i ≠ some .exist) ∧
  (∀ b, env.oracle.parseExtra b ≠ .error .exist) ∧
  (∀ b flds u, env.oracle.parseExtra b = .ok flds → flds.unix = some u →
    u.parsed ≠ .error .exist) ∧
  (∀ hdl, env.hook = some hdl → ∀ nm e, hdl nm e ≠ some .exist)

theorem updateMeta_no_exist (env : Env) (i : Nat) (f : ZipEntry) (p : Path)
    (st : St) (hne : NoExistEnv env) :
    (updateFileMetadata env i f p st).1 ≠ some .exist := by
  obtain ⟨hmk, hop, hwr, htm, hcm, hco, hpz, hpu, hhk⟩ := hne
  intro h
  unfold updateFileMetadata at h
  split at h
  next e hpe =>
    simp at h
    rw [h] at hpe
    exact hpz f.extra hpe
  next fields hpe =>
    split at h
    next e st1 hm1 =>
      simp at h
      rw [h] at hm1
      rcases lchtimes_err env i p f.modTime st .exist (by rw [hm1]) with hc | hc
      · exact htm i hc
      · cases hc
    next st1 hm1 =>
      split at h
      next e st2 hm2 =>
        simp at h
        rw [h] at hm2
        rcases lchmod_err env i p f.perm st1 .exist (by rw [hm2]) with hc | hc
        · exact hcm i hc
        · cases hc
      next st2 hm2 =>
        split at h
        · simp at h
        next u hu =>
          split at h
          next e hp2 =>
            simp at h
            rw [h] at hp2
            exact hpu f.extra fields u hpe hu hp2
          next uid gid hp2 =>
            split at h
            next st3 hm3 => simp at h
            next e st3 hm3 =>
              split at h
              · simp at h
              next hdl hk =>
                split at h
                next hres => simp at h
                next e2 hres =>
                  simp at h
                  rw [h] at hres
                  exact hhk hdl hk f.name e hres

theorem createFile_no_exist (env : Env) (i : Nat) (f : ZipEntry) (p : Path)
    (st : St) (hne : NoExistEnv env) :
    (createFile env i f p st).1 ≠ some .exist := by
  have hop := hne.2.1
  have hwr := hne.2.2.1
  intro h
  unfold createFile at h
  split at h
  next e st1 hrm =>
    split at h
    · split at h
      next e2 hop2 =>
        simp at h
        rw [h] at hop2
        exact hop i hop2
      next hop2 =>
        split at h
        next e3 hwr3 =>
          simp at h
          rw [h] at hwr3
          exact hwr i hwr3
        · simp at h
    next hue =>
      simp at h
      rw [h] at hrm
      rcases osRemove_err p st .exist (by rw [hrm]) with hc | hc <;> cases hc
  next st1 hrm =>
    split at h
    next e2 hop2 =>
      simp at h
      rw [h] at hop2
      exact hop i hop2
    next hop2 =>
      split at h
      next e3 hwr3 =>
        simp at h
        rw [h] at hwr3
        exact hwr i hwr3
      · simp at h

theorem createSymlink_no_exist (env : Env) (i : Nat) (f : ZipEntry) (p : Path)
    (st : St) (hne : NoExistEnv env) :
    (createSymlink env i f p st).1 ≠ some .exist := by
  have hop := hne.2.1
  intro h
  unfold createSymlink at h
  split at h
  next e st1 hrm =>
    split at h
    next hee =>
      split at h
      next e2 hop2 =>
        simp at h
        rw [h] at hop2
        exact hop i hop2
      next hop2 =>
        split at h
        next nx hfx =>
          rw [hee] at hrm
          rw [osRemove_notExist_find p st st1 hrm] at hfx
          cases hfx
        next hfx =>
          exact updateMeta_no_exist env i f p _ hne h
    next hue =>
      simp at h
      rw [h] at hrm
      rcases osRemove_err p st .exist (by rw [hrm]) with hc | hc <;> cases hc
  next st1 hrm =>
    split at h
    next e2 hop2 =>
      simp at h
      rw [h] at hop2
      exact hop i hop2
    next hop2 =>
      split at h
      next nx hfx =>
        rw [osRemove_ok_find p st st1 hrm] at hfx
        cases hfx
      next hfx =>
        exact updateMeta_no_exist env i f p _ hne h

theorem taskBody_no_exist (env : Env) (t : Nat) (st : St) (hne : NoExistEnv env) :
    (taskBody env t st).1 ≠ some .exist := by
  intro h
  unfold taskBody at h
  split at h
  · simp at h
  next f hf =>
    split at h
    next e st1 hcf =>
      simp at h
      rw [h] at hcf
      exact createFile_no_exist env t f (env.pathOf f) st hne (by rw [hcf])
    next st1 hcf =>
      exact updateMeta_no_exist env t f (env.pathOf f) st1 hne h

/- ===== Shape lemmas for the orchestrator steps ===== -/

/-- One loop iteration never touches the errgroup error, never reaches
the directory pass, the final deferred return or a plain-success
synchronous return, and grows the running set only by submitting entry i
itself, which requires a free limiter slot and an uncancelled context
(the select at extractor.go lines 117-121 precedes submission). -/
theorem loopIter_spec (env : Env) (cfg : Cfg) (i : Nat) (cfg2 : Cfg)
    (h : loopIter env cfg i = some cfg2) :
    cfg2.groupErr = cfg.groupErr ∧
    (∀ j, cfg2.phase ≠ .dirPass j) ∧
    (∀ r, cfg2.phase ≠ .done r) ∧
    cfg2.phase ≠ .finishing none ∧
    (cfg2.running = cfg.running ∨
      (cfg2.running = i :: cfg.running ∧ cfg.running.length < env.conc ∧
        cfg.groupErr = none)) := by
  unfold loopIter at h
  split at h
  · cases h; refine ⟨rfl, ?_, ?_, ?_, Or.inl rfl⟩ <;> simp
  next f hf =>
    split at h
    · cases h; refine ⟨rfl, ?_, ?_, ?_, Or.inl rfl⟩ <;> simp
    · split at h
      · split at h
        next e hmk => cases h; refine ⟨rfl, ?_, ?_, ?_, Or.inl rfl⟩ <;> simp
        next hmk =>
          split at h
          next hg => cases h; refine ⟨rfl, ?_, ?_, ?_, Or.inl rfl⟩ <;> simp
          next hg =>
            have hgn : cfg.groupErr = none := by
              cases hgo : cfg.groupErr with
              | none => rfl
              | some e => rw [hgo] at hg; simp at hg
            split at h
            · split at h
              next st2 hcd => cases h; refine ⟨rfl, ?_, ?_, ?_, Or.inl rfl⟩ <;> simp
              next e st2 hcd => cases h; refine ⟨rfl, ?_, ?_, ?_, Or.inl rfl⟩ <;> simp
            · split at h
              · split at h
                next st2 hcs => cases h; refine ⟨rfl, ?_, ?_, ?_, Or.inl rfl⟩ <;> simp
                next e st2 hcs => cases h; refine ⟨rfl, ?_, ?_, ?_, Or.inl rfl⟩ <;> simp
              · split at h
                next hlt =>
                  cases h
                  refine ⟨rfl, ?_, ?_, ?_, Or.inr ⟨rfl, hlt, hgn⟩⟩ <;> simp
                next hlt => cases h
      · cases h; refine ⟨rfl, ?_, ?_, ?_, Or.inl rfl⟩ <;> simp

/-- Any synchronous error a loop iteration returns is a path-escape, a
cancellation, or a collaborator failure: never an already-exists error,
because createDirectory downgrades exists and the create calls remove
the destination first. -/
theorem loopIter_no_exist (env : Env) (cfg : Cfg) (i : Nat) (cfg2 : Cfg)
    (hne : NoExistEnv env) (h : loopIter env cfg i = some cfg2) (e : GoErr)
    (hp : cfg2.phase = .finishing (some e)) : e ≠ .exist := by
  unfold loopIter at h
  split at h
  · cases h; simp at hp
  next f hf =>
    split at h
    · cases h; simp at hp
    · split at h
      · split at h
        next e2 hmk =>
          cases h
          simp at hp
          intro hx
          rw [hp.trans hx] at hmk
          exact hne.1 i hmk
        next hmk =>
          split at h
          next hg =>
            cases h
            simp at hp
            intro hx
            exact absurd (hp.trans hx) (by simp)
          next hg =>
            split at h
            · split at h
              next st2 hcd => cases h; simp at hp
              next e2 st2 hcd =>
                cases h
                have := createDirectory_ok f (env.pathOf f)
                  (mkdirAll (parentPath (env.pathOf f)) cfg.st)
                rw [hcd] at this
                cases this
            · split at h
              · split at h
                next st2 hcs => cases h; simp at hp
                next e2 st2 hcs =>
                  cases h
                  simp at hp
                  intro hx
                  exact createSymlink_no_exist env i f (env.pathOf f)
                    (mkdirAll (parentPath (env.pathOf f)) cfg.st) hne
                    (by rw [hcs]; simpa using hp.trans hx)
              · split at h
                next hlt => cases h; simp at hp
                next hlt => cases h
      · cases h
        simp at hp
        intro hx
        exact absurd (hp.trans hx) (by simp)

/-- One directory-pass iteration only moves to the next index, a failure
return, or the success return; it never touches the errgroup error or the
running set. -/
theorem dirIter_spec (env : Env) (cfg : Cfg) (j : Nat) :
    (dirIter env cfg j).running = cfg.running ∧
    (dirIter env cfg j).groupErr = cfg.groupErr ∧
    (∀ i, (dirIter env cfg j).phase ≠ .loop i) ∧
    (∀ r, (dirIter env cfg j).phase ≠ .done r) ∧
    (dirIter env cfg j).phase ≠ .joining := by
  unfold dirIter
  split
  · exact ⟨rfl, rfl, by simp, by simp, by simp⟩
  next f hf =>
    split
    · split
      next st1 hm => exact ⟨rfl, rfl, by simp, by simp, by simp⟩
      next e st1 hm => exact ⟨rfl, rfl, by simp, by simp, by simp⟩
    · exact ⟨rfl, rfl, by simp, by simp, by simp⟩

/-- A failing directory-pass iteration reports a metadata failure, never
an already-exists error. -/
theorem dirIter_no_exist (env : Env) (cfg : Cfg) (j : Nat) (hne : NoExistEnv env)
    (e : GoErr) (hp : (dirIter env cfg j).phase = .finishing (some e)) :
    e ≠ .exist := by
  unfold dirIter at hp
  split at hp
  · simp at hp
  next f hf =>
    split at hp
    · split at hp
      next st1 hm => simp at hp
      next e2 st1 hm =>
        simp at hp
        intro hx
        exact updateMeta_no_exist env j f (env.pathOf f) cfg.st hne
          (by rw [hm]; simpa using hp.trans hx)
    · simp at hp

/- ===== Common concrete material for the executions below ===== -/

/-- A collaborator oracle in which every external call succeeds and no
entry carries extra metadata. -/
def okOracle : Oracle :=
  { parseExtra := fun _ => .ok ⟨none⟩
    mkdirAllErr := fun _ => none
    openErr := fun _ => none
    writeErr := fun _ => none
    timesErr := fun _ => none
    chmodErr := fun _ => none
    chownErr := fun _ => none }

/-- An initially empty filesystem. -/
def emptySt : St := ⟨[], 0⟩

/- ===== Helper invariants ===== -/

/-- joinNext never reaches the terminal state and keeps the running set
and the errgroup error. -/
theorem joinNext_spec (cfg : Cfg) :
    (joinNext cfg).running = cfg.running ∧
    (joinNext cfg).groupErr = cfg.groupErr ∧
    (∀ r, (joinNext cfg).phase ≠ .done r) := by
  unfold joinNext
  split <;> exact ⟨rfl, rfl, by simp⟩

/-- In every reachable terminal state the running set is empty: the
deferred wg.Wait ran before Extract returned, so every submitted task had
completed. -/
theorem done_running (env : Env) (st0 : St) (cfg : Cfg) (hr : Reach env st0 cfg) :
    ∀ r, cfg.phase = .done r → cfg.running = [] := by
  refine reach_invariant env st0
    (fun c => ∀ r, c.phase = .done r → c.running = []) (by simp [initCfg]) ?_ cfg hr
  intro c c2 hInv hs
  cases hs with
  | orch i cfg2 hp hit =>
    intro r hd
    exact absurd hd ((loopIter_spec env c i c2 hit).2.2.1 r)
  | task t ht =>
    intro r hd
    have hempty := hInv r hd
    rw [hempty] at ht
    cases ht
  | join hp hrun =>
    intro r hd
    exact absurd hd ((joinNext_spec c).2.2 r)
  | dirstep j hp =>
    intro r hd
    exact absurd hd ((dirIter_spec env c j).2.2.2.1 r)
  | finish e hp hrun =>
    intro r hd
    exact hrun

/- ===== C6: the concurrency bound ===== -/

/-- C6: at most options.concurrency file-write tasks are in flight at any
reachable point of an Extract execution: the limiter slot is acquired by
the submitting iteration (which blocks when every slot is held) and
released by the completing task, so the running set never exceeds the
configured bound. -/
theorem extract_concurrency_bound (env : Env) (st0 : St) (cfg : Cfg)
    (hr : Reach env st0 cfg) : cfg.running.length ≤ env.conc := by
  refine reach_invariant env st0 (fun c => c.running.length ≤ env.conc)
    (by simp [initCfg]) ?_ cfg hr
  intro c c2 hInv hs
  cases hs with
  | orch i cfg2 hp hit =>
    rcases (loopIter_spec env c i c2 hit).2.2.2.2 with hsame | ⟨hcons, hlt, hg⟩
    · rw [hsame]; exact hInv
    · rw [hcons]; exact Nat.succ_le_of_lt hlt
  | task t ht =>
    have herase : (completeTask env c t).running = c.running.erase t := rfl
    rw [herase]
    exact le_trans (List.Sublist.length_le (List.erase_sublist t c.running)) hInv
  | join hp hrun =>
    rw [(joinNext_spec c).1]
    exact hInv
  | dirstep j hp =>
    rw [(dirIter_spec env c j).1]
    exact hInv
  | finish e hp hrun =>
    exact hInv

/-- Concrete environment exercising the bound: two file entries under a
limit of one slot. -/
def envBound : Env :=
  { entries := [⟨strP "a", .regular, 420, 1, []⟩, ⟨strP "b", .regular, 420, 1, []⟩]
    chroot := strP "/r"
    conc := 1
    oracle := okOracle
    hook := none }

/-- Witness for C6: after the first iteration submits its task, the
running set has size one, within the configured bound of one. -/
theorem extract_concurrency_bound_witness :
    (runSched envBound [.tick] (initCfg emptySt)).running.length ≤ envBound.conc :=
  extract_concurrency_bound envBound emptySt
    (runSched envBound [.tick] (initCfg emptySt))
    (runSched_reach_init envBound [.tick] emptySt)

/- ===== C4: error propagation policy ===== -/

/-- C4 (amended): in any Extract execution the orchestrator submits a new
file task only while no error has been captured (the cancellation check
precedes submission), and Extract returns exactly one error value only
after every in-flight task has completed; the returned value is the first
errgroup task error whenever any task failed, and the synchronous error
otherwise — the deferred wg.Wait may therefore replace a synchronous
failure with a task error captured later. -/
theorem extract_error_policy (env : Env) (st0 : St) (c c2 : Cfg)
    (hr : Reach env st0 c) (hs : Step env c c2) :
    (c.running.length < c2.running.length → c.groupErr = none) ∧
    (∀ r, c2.phase = .done r →
      c.running = [] ∧ ∃ e, c.phase = .finishing e ∧ r = orElseO c.groupErr e) := by
  constructor
  · intro hlt
    cases hs with
    | orch i cfg2 hp hit =>
      rcases (loopIter_spec env c i c2 hit).2.2.2.2 with hsame | ⟨hcons, hl, hg⟩
      · rw [hsame] at hlt; exact absurd hlt (lt_irrefl _)
      · exact hg
    | task t ht =>
      have heq : (completeTask env c t).running = c.running.erase t := rfl
      rw [heq] at hlt
      exact absurd hlt
        (Nat.not_lt.mpr (List.Sublist.length_le (List.erase_sublist t c.running)))
    | join hp hrun =>
      rw [(joinNext_spec c).1] at hlt
      exact absurd hlt (lt_irrefl _)
    | dirstep j hp =>
      rw [(dirIter_spec env c j).1] at hlt
      exact absurd hlt (lt_irrefl _)
    | finish e hp hrun => exact absurd hlt (lt_irrefl _)
  · intro r hd
    cases hs with
    | orch i cfg2 hp hit => exact absurd hd ((loopIter_spec env c i c2 hit).2.2.1 r)
    | task t ht =>
      have hempty := done_running env st0 c hr r hd
      rw [hempty] at ht
      cases ht
    | join hp hrun => exact absurd hd ((joinNext_spec c).2.2 r)
    | dirstep j hp => exact absurd hd ((dirIter_spec env c j).2.2.2.1 r)
    | finish e hp hrun =>
      simp only [] at hd
      refine ⟨hrun, e, hp, ?_⟩
      have hd2 : Phase.done (orElseO c.groupErr e) = Phase.done r := hd
      injection hd2 with h2
      exact h2.symm

/-- Environment with an empty archive, used to exercise the policy
theorem on a concrete final step. -/
def envPolicy : Env :=
  { entries := []
    chroot := strP "/r"
    conc := 1
    oracle := okOracle
    hook := none }

/-- The configuration of the empty-archive run just before the deferred
return: the loop exits, the join succeeds, the directory pass is empty. -/
def cfgPolicy : Cfg := runSched envPolicy [.tick, .tick, .tick] (initCfg emptySt)

/-- Witness for the amended C4, at the final step of the empty-archive
execution. -/
theorem extract_error_policy_witness :
    (cfgPolicy.running.length <
        ({ cfgPolicy with phase := .done (orElseO cfgPolicy.groupErr none) } : Cfg).running.length →
      cfgPolicy.groupErr = none) ∧
    (∀ r, ({ cfgPolicy with phase := .done (orElseO cfgPolicy.groupErr none) } : Cfg).phase = .done r →
      cfgPolicy.running = [] ∧ ∃ e, cfgPolicy.phase = .finishing e ∧ r = orElseO cfgPolicy.groupErr e) :=
  extract_error_policy envPolicy emptySt cfgPolicy _
    (runSched_reach_init envPolicy [.tick, .tick, .tick] emptySt)
    (Step.finish cfgPolicy none (by decide) (by decide))

/-- Environment refuting the first-failure wording of C4: entry 0 is a
file whose content write fails with io 7, entry 1 escapes the chroot. -/
def envNotFirst : Env :=
  { entries := [⟨strP "a", .regular, 420, 1, []⟩, ⟨strP "../esc", .regular, 420, 1, []⟩]
    chroot := strP "/r"
    conc := 2
    oracle := { okOracle with writeErr := fun i => if i = 0 then some (.io 7) else none }
    hook := none }

/-- The state after the orchestrator submits task 0 and then captures the
synchronous path-escape failure for entry 1, while task 0 is still in
flight and the errgroup has recorded nothing. -/
def cfgNotFirstMid : Cfg := runSched envNotFirst [.tick, .tick] (initCfg emptySt)

/-- The state after the in-flight task then fails and the deferred
wg.Wait runs. -/
def cfgNotFirstFinal : Cfg := runSched envNotFirst [.tcomp, .tick] cfgNotFirstMid

/-- C4 counterexample: an execution in which the chronologically first
captured failure is the synchronous path-escape error for entry 1
(captured while the errgroup still held no error), yet Extract returns
the io 7 failure of the in-flight task, because the deferred wg.Wait at
extractor.go lines 92-96 overwrites the synchronous return value. The
claim that Extract returns the first failure captured is therefore false
on this execution. -/
theorem extract_returns_later_task_error :
    Reach envNotFirst emptySt cfgNotFirstMid ∧
    cfgNotFirstMid.phase = .finishing (some (.pathEscape (strP "/esc") (strP "/r"))) ∧
    cfgNotFirstMid.groupErr = none ∧
    Relation.ReflTransGen (Step envNotFirst) cfgNotFirstMid cfgNotFirstFinal ∧
    cfgNotFirstFinal.phase = .done (some (.io 7)) :=
  ⟨runSched_reach_init envNotFirst [.tick, .tick] emptySt, by decide, by decide,
    runSched_reach envNotFirst [.tcomp, .tick] cfgNotFirstMid, by decide⟩

/- ===== C10: the deferred wait and in-flight failures ===== -/

/-- C10: when Extract has taken a synchronous error return (phase
finishing with error e0) while one task is still in flight and the
errgroup holds no error yet, and that task body fails with w, then the
execution can only proceed by completing the task and running the
deferred wg.Wait, and every terminal state it reaches returns w: the
task error replaces the synchronous error, so the caller may not receive
the chronologically first failure. -/
theorem deferred_wait_replaces_sync_error (env : Env) (c : Cfg) (t : Nat)
    (e0 w : GoErr)
    (hp : c.phase = .finishing (some e0)) (hr : c.running = [t])
    (hg : c.groupErr = none) (hw : (taskBody env t c.st).1 = some w) :
    Relation.ReflTransGen (Step env) c
      { completeTask env c t with phase := .done (some w) } ∧
    (∀ c2 r, Relation.ReflTransGen (Step env) c c2 → c2.phase = .done r →
      r = some w) := by
  have hc1run : (completeTask env c t).running = [] := by
    show c.running.erase t = []
    rw [hr]
    simp
  have hc1g : (completeTask env c t).groupErr = some w := by
    show orElseO c.groupErr (taskBody env t c.st).1 = some w
    rw [hg, hw]
    rfl
  have hc1p : (completeTask env c t).phase = .finishing (some e0) := hp
  have step1 : Step env c (completeTask env c t) :=
    Step.task c t (by rw [hr]; exact List.mem_cons_self t [])
  have hmerge : orElseO (completeTask env c t).groupErr (some e0) = some w := by
    rw [hc1g]
    rfl
  have step2 : Step env (completeTask env c t)
      { completeTask env c t with phase := .done (some w) } := by
    have hs := @Step.finish env (completeTask env c t) (some e0) hc1p hc1run
    rw [hmerge] at hs
    exact hs
  have hstep_c : ∀ x, Step env c x → x = completeTask env c t := by
    intro x hs
    cases hs with
    | orch i cfg2 hpx hit => rw [hp] at hpx; cases hpx
    | task t2 ht2 =>
      rw [hr] at ht2
      rw [List.mem_singleton.mp ht2]
    | join hpx hrx => rw [hp] at hpx; cases hpx
    | dirstep j hpx => rw [hp] at hpx; cases hpx
    | finish e2 hpx hrx =>
      rw [hr] at hrx
      cases hrx
  have hstep_c1 : ∀ x, Step env (completeTask env c t) x →
      x = { completeTask env c t with phase := .done (some w) } := by
    intro x hs
    cases hs with
    | orch i cfg2 hpx hit => rw [hc1p] at hpx; cases hpx
    | task t2 ht2 =>
      rw [hc1run] at ht2
      cases ht2
    | join hpx hrx => rw [hc1p] at hpx; cases hpx
    | dirstep j hpx => rw [hc1p] at hpx; cases hpx
    | finish e2 hpx hrx =>
      have he2 : e2 = some e0 := by
        rw [hc1p] at hpx
        injection hpx with h2
        exact h2.symm
      rw [he2, hmerge]
  have hterm : ∀ x, Step env { completeTask env c t with phase := .done (some w) } x →
      False := by
    intro x hs
    cases hs with
    | orch i cfg2 hpx hit => cases hpx
    | task t2 ht2 =>
      have : ({ completeTask env c t with phase := .done (some w) } : Cfg).running = [] :=
        hc1run
      rw [this] at ht2
      cases ht2
    | join hpx hrx => cases hpx
    | dirstep j hpx => cases hpx
    | finish e2 hpx hrx => cases hpx
  have hchain : ∀ c2, Relation.ReflTransGen (Step env) c c2 →
      c2 = c ∨ c2 = completeTask env c t ∨
      c2 = { completeTask env c t with phase := .done (some w) } := by
    intro c2 hreach
    induction hreach with
    | refl => exact Or.inl rfl
    | tail hy hs ih =>
      rcases ih with rfl | rfl | rfl
      · exact Or.inr (Or.inl (hstep_c _ hs))
      · exact Or.inr (Or.inr (hstep_c1 _ hs))
      · exact absurd hs (fun hx => hterm _ hx)
  refine ⟨Relation.ReflTransGen.tail (Relation.ReflTransGen.single step1) step2, ?_⟩
  intro c2 r hreach hdone
  rcases hchain c2 hreach with rfl | rfl | rfl
  · rw [hp] at hdone; cases hdone
  · rw [hc1p] at hdone; cases hdone
  · have : Phase.done (some w) = Phase.done r := hdone
    injection this with h2
    exact h2.symm

/-- Environment for the C10 witness: a single file entry whose content
write fails with io 2. -/
def envDeferred : Env :=
  { entries := [⟨strP "a", .regular, 420, 1, []⟩]
    chroot := strP "/r"
    conc := 1
    oracle := { okOracle with writeErr := fun _ => some (.io 2) }
    hook := none }

/-- A configuration that has taken a synchronous io 9 return while task 0
is in flight. -/
def cfgDeferred : Cfg :=
  { phase := .finishing (some (.io 9)), running := [0], groupErr := none, st := emptySt }

/-- Witness for C10 at a concrete configuration: the only terminal result
is the io 2 task failure, not the synchronous io 9 error. -/
theorem deferred_wait_replaces_sync_error_witness :
    Relation.ReflTransGen (Step envDeferred) cfgDeferred
      { completeTask envDeferred cfgDeferred 0 with phase := .done (some (.io 2)) } ∧
    (∀ c2 r, Relation.ReflTransGen (Step envDeferred) cfgDeferred c2 →
      c2.phase = .done r → r = some (.io 2)) :=
  deferred_wait_replaces_sync_error envDeferred cfgDeferred 0 (.io 9) (.io 2)
    (by decide) (by decide) (by decide) (by decide)

/- ===== C3: escaping entries and node creation ===== -/

/-- Environment for the C3 demonstration: a single regular entry whose
name climbs out of the chroot /data to the sibling path /database. -/
def envEscape : Env :=
  { entries := [⟨strP "../database", .regular, 420, 99, []⟩]
    chroot := strP "/data"
    conc := 1
    oracle := okOracle
    hook := none }

/-- The complete execution of the escaping-entry archive. -/
def cfgEscapeFinal : Cfg :=
  runSched envEscape [.tick, .tick, .tcomp, .tick, .tick, .tick, .tick] (initCfg emptySt)

/-- C3 demonstration: the entry named ../database under chroot /data
resolves to /database, which is outside the root, yet the execution runs
to successful completion and materializes a file node at /database: the
bare HasPrefix comparison of extractor.go line 109 accepts the sibling
path, so the claim that every entry resolving outside the root aborts
extraction with a path-safety error and no node created is violated by
the code. -/
theorem escape_entry_extracted_outside_root :
    Reach envEscape emptySt cfgEscapeFinal ∧
    cfgEscapeFinal.phase = .done none ∧
    (cfgEscapeFinal.st.fs.find (strP "/database")).map (fun n => n.kind) =
      some .file ∧
    specWithinRoot (strP "/data") (joinPath (strP "/data") (strP "../database")) =
      false :=
  ⟨runSched_reach_init envEscape [.tick, .tick, .tcomp, .tick, .tick, .tick, .tick]
      emptySt,
    by decide, by decide, by decide⟩

/- ===== C8: irregular entries are skipped silently ===== -/

/-- C8: an entry carrying any type bit other than regular file, symlink
or directory makes the loop iteration advance the index and nothing
else: no error, no path check, no parent-directory creation, no task
submission and no filesystem change, because the continue of extractor.go
lines 99-101 precedes all of them. -/
theorem irregular_entry_skipped (env : Env) (cfg : Cfg) (i : Nat) (f : ZipEntry)
    (hf : env.entryAt i = some f) (hm : isIrregularMode f.modeType = true) :
    loopIter env cfg i = some { cfg with phase := .loop (i + 1) } := by
  unfold loopIter
  rw [hf]
  simp [hm]

/-- Environment with a single named-pipe entry. -/
def envIrregular : Env :=
  { entries := [⟨strP "fifo", .namedPipe, 420, 1, []⟩]
    chroot := strP "/r"
    conc := 1
    oracle := okOracle
    hook := none }

/-- Witness for C8: the named-pipe entry is skipped by the first
iteration, leaving everything but the loop index unchanged. -/
theorem irregular_entry_skipped_witness :
    loopIter envIrregular (initCfg emptySt) 0 =
      some { initCfg emptySt with phase := .loop (0 + 1) } :=
  irregular_entry_skipped envIrregular (initCfg emptySt) 0
    ⟨strP "fifo", .namedPipe, 420, 1, []⟩ (by decide) (by decide)

/- ===== C9: extra-field parse failures ===== -/

/-- C9: when the raw extra bytes of an entry fail to parse,
updateFileMetadata returns exactly that parse error with the filesystem
and clock untouched — so no timestamp, permission or ownership change was
applied — regardless of whether the entry carries an ownership field; and
a directory-pass iteration meeting such an entry aborts the pass with the
same error, which the pipeline returns (fatal to the extraction). -/
theorem metadata_parse_failure_fatal (env : Env) (i : Nat) (f : ZipEntry)
    (p : Path) (st : St) (e : GoErr)
    (h : env.oracle.parseExtra f.extra = .error e) :
    updateFileMetadata env i f p st = (some e, st) ∧
    (∀ cfg : Cfg, env.entryAt i = some f → f.modeType = .dir →
      dirIter env cfg i = { cfg with phase := .finishing (some e) }) := by
  constructor
  · exact updateMeta_parse_err env i f p st e h
  · intro cfg hf hd
    unfold dirIter
    rw [hf]
    simp [hd, updateMeta_parse_err env i f (env.pathOf f) cfg.st e h]

/-- Environment for the C9 witness: one directory entry whose extra
bytes fail to parse with io 5; the entry carries no ownership field. -/
def envParseErr : Env :=
  { entries := [⟨strP "d", .dir, 493, 7, [9]⟩]
    chroot := strP "/r"
    conc := 1
    oracle := { okOracle with
      parseExtra := fun b => if b = [9] then .error (.io 5) else .ok ⟨none⟩ }
    hook := none }

/-- Witness for C9 at the concrete directory entry. -/
theorem metadata_parse_failure_fatal_witness :
    updateFileMetadata envParseErr 0 ⟨strP "d", .dir, 493, 7, [9]⟩ (strP "/r/d")
        emptySt = (some (.io 5), emptySt) ∧
    (∀ cfg : Cfg, envParseErr.entryAt 0 = some ⟨strP "d", .dir, 493, 7, [9]⟩ →
      (⟨strP "d", .dir, 493, 7, [9]⟩ : ZipEntry).modeType = .dir →
      dirIter envParseErr cfg 0 = { cfg with phase := .finishing (some (.io 5)) }) :=
  metadata_parse_failure_fatal envParseErr 0 ⟨strP "d", .dir, 493, 7, [9]⟩
    (strP "/r/d") emptySt (.io 5) (by decide)

/- ===== C2: ownership failure handling ===== -/

/-- C2 (amended): for an entry carrying a unix ownership field whose
chown application fails after the earlier metadata steps succeeded: with
no ChownErrorHandler registered the failure is silently dropped and
updateFileMetadata succeeds (the err of the Go statement
if err := lchown(path, ...) is scoped to that if, so with no handler the
naked return yields the nil named err); with a hook returning nil it also
succeeds; with a hook returning an error, that error is returned and
propagates. -/
theorem chown_failure_policy (env : Env) (i : Nat) (f : ZipEntry) (p : Path)
    (st : St) (flds : ExtraFields) (u : UnixFieldData) (uid gid : Int) (e : GoErr)
    (hpz : env.oracle.parseExtra f.extra = .ok flds)
    (hu : flds.unix = some u) (hid : u.parsed = .ok (uid, gid))
    (ht : env.oracle.timesErr i = none) (hc : env.oracle.chmodErr i = none)
    (hco : env.oracle.chownErr i = some e)
    (hnode : (st.fs.find p).isSome = true) :
    (env.hook = none → (updateFileMetadata env i f p st).1 = none) ∧
    (∀ hdl, env.hook = some hdl → hdl f.name e = none →
      (updateFileMetadata env i f p st).1 = none) ∧
    (∀ hdl e2, env.hook = some hdl → hdl f.name e = some e2 →
      (updateFileMetadata env i f p st).1 = some e2) := by
  obtain ⟨n, hn⟩ := Option.isSome_iff_exists.mp hnode
  have h1 : lchtimes env i p f.modTime st =
      (none, { st with fs := st.fs.set p { n with mtime := f.modTime } }) := by
    unfold lchtimes nodeOp
    rw [ht, hn]
  have h2 : lchmod env i p f.perm { st with fs := st.fs.set p { n with mtime := f.modTime } } = (none, { st with fs := (st.fs.set p { n with mtime := f.modTime }).set p { n with mtime := f.modTime, perm := f.perm } }) := by
    unfold lchmod nodeOp
    rw [hc, FS.find_set_self]
  have h3 : lchown env i p uid gid { st with fs := (st.fs.set p { n with mtime := f.modTime }).set p { n with mtime := f.modTime, perm := f.perm } } = (some e, { st with fs := (st.fs.set p { n with mtime := f.modTime }).set p { n with mtime := f.modTime, perm := f.perm } }) := by
    unfold lchown nodeOp
    rw [hco]
  refine ⟨?_, ?_, ?_⟩
  · intro hk
    unfold updateFileMetadata
    simp only [hpz, h1, h2, hu, hid, h3, hk]
  · intro hdl hk hres
    unfold updateFileMetadata
    simp only [hpz, h1, h2, hu, hid, h3, hk, hres]
  · intro hdl e2 hk hres
    unfold updateFileMetadata
    simp only [hpz, h1, h2, hu, hid, h3, hk, hres]

/-- Environment for C2: one regular entry carrying a unix field, chown
failing with io 3, no hook registered. -/
def envChownSwallow : Env :=
  { entries := [⟨strP "f", .regular, 420, 5, [1, 2]⟩]
    chroot := strP "/r"
    conc := 1
    oracle := { okOracle with
      parseExtra := fun _ => .ok ⟨some ⟨.ok (0, 0)⟩⟩
      chownErr := fun _ => some (.io 3) }
    hook := none }

/-- The complete execution of the chown-failure archive without hook. -/
def cfgChownFinal : Cfg :=
  runSched envChownSwallow [.tick, .tick, .tcomp, .tick, .tick, .tick, .tick]
    (initCfg emptySt)

/-- C2 counterexample: with a unix ownership field present, the chown
application failing with io 3 and no ChownErrorHandler registered, the
whole extraction nevertheless completes successfully: the ownership
failure does not propagate, refuting the claim that without a hook the
failure is fatal to the extraction. -/
theorem chown_failure_without_hook_not_fatal :
    Reach envChownSwallow emptySt cfgChownFinal ∧
    envChownSwallow.hook = none ∧
    envChownSwallow.oracle.chownErr 0 = some (.io 3) ∧
    cfgChownFinal.phase = .done none :=
  ⟨runSched_reach_init envChownSwallow
      [.tick, .tick, .tcomp, .tick, .tick, .tick, .tick] emptySt,
    rfl, rfl, by decide⟩

/-- A filesystem state already holding the destination file node. -/
def stChownNode : St := ⟨[(strP "/r/f", ⟨.file, 420, 0, none⟩)], 1⟩

/-- Witness for the amended C2 at the concrete entry and state. -/
theorem chown_failure_policy_witness :
    (envChownSwallow.hook = none →
      (updateFileMetadata envChownSwallow 0 ⟨strP "f", .regular, 420, 5, [1, 2]⟩
        (strP "/r/f") stChownNode).1 = none) ∧
    (∀ hdl, envChownSwallow.hook = some hdl → hdl (strP "f") (.io 3) = none →
      (updateFileMetadata envChownSwallow 0 ⟨strP "f", .regular, 420, 5, [1, 2]⟩
        (strP "/r/f") stChownNode).1 = none) ∧
    (∀ hdl e2, envChownSwallow.hook = some hdl → hdl (strP "f") (.io 3) = some e2 →
      (updateFileMetadata envChownSwallow 0 ⟨strP "f", .regular, 420, 5, [1, 2]⟩
        (strP "/r/f") stChownNode).1 = some e2) :=
  chown_failure_policy envChownSwallow 0 ⟨strP "f", .regular, 420, 5, [1, 2]⟩
    (strP "/r/f") stChownNode ⟨some ⟨.ok (0, 0)⟩⟩ ⟨.ok (0, 0)⟩ 0 0 (.io 3)
    (by decide) (by decide) (by decide) (by decide) (by decide) (by decide)
    (by decide)

/- ===== C5: the directory metadata fixup pass ===== -/

theorem entryAt_some_lt (env : Env) (k : Nat) (f : ZipEntry)
    (h : env.entryAt k = some f) : k < env.entries.length := by
  by_contra hk
  rw [Env.entryAt, List.getElem?_eq_none (Nat.le_of_not_lt hk)] at h
  cases h

theorem entryAt_none_le (env : Env) (j : Nat) (h : env.entryAt j = none) :
    env.entries.length ≤ j := by
  by_contra hj
  have hlt := Nat.lt_of_not_le hj
  rw [Env.entryAt, List.getElem?_eq_getElem hlt] at h
  cases h

theorem orElseO_eq_none (a b : Option GoErr) (h : orElseO a b = none) :
    a = none ∧ b = none := by
  cases a with
  | none => exact ⟨rfl, h⟩
  | some e => cases h

/-- The archive has pairwise distinct resolved paths among its directory
entries (true of well-formed archives; duplicate directory records with
the same resolved path would make the later record win). -/
def dirDistinct (env : Env) : Prop :=
  ∀ j k (f g : ZipEntry), j ≠ k → env.entryAt j = some f →
    env.entryAt k = some g → f.modeType = .dir → g.modeType = .dir →
    env.pathOf f ≠ env.pathOf g

/-- Directory entries below index j already carry their archived
modification time on disk. -/
def DirP (env : Env) (cfg : Cfg) (j : Nat) : Prop :=
  ∀ k f, k < j → env.entryAt k = some f → f.modeType = .dir →
    ∃ n, cfg.st.fs.find (env.pathOf f) = some n ∧ n.mtime = f.modTime

/-- Invariant for the fixup pass: once the execution is inside the
directory pass (or at its successful end), no task is in flight and all
directory entries already handled carry their archived times. -/
def C5Inv (env : Env) (cfg : Cfg) : Prop :=
  (∀ j, cfg.phase = .dirPass j → cfg.running = [] ∧ DirP env cfg j) ∧
  (cfg.phase = .finishing none → cfg.running = [] ∧ DirP env cfg env.entries.length) ∧
  (cfg.phase = .done none → cfg.running = [] ∧ DirP env cfg env.entries.length)

theorem c5_step (env : Env) (hdis : dirDistinct env) (c c2 : Cfg)
    (hInv : C5Inv env c) (hs : Step env c c2) : C5Inv env c2 := by
  cases hs with
  | orch i cfg2 hp hit =>
    have hspec := loopIter_spec env c i c2 hit
    refine ⟨?_, ?_, ?_⟩
    · intro j heq; exact absurd heq (hspec.2.1 j)
    · intro heq; exact absurd heq hspec.2.2.2.1
    · intro heq; exact absurd heq (hspec.2.2.1 none)
  | task t ht =>
    refine ⟨?_, ?_, ?_⟩
    · intro j heq
      have := (hInv.1 j heq).1
      rw [this] at ht
      cases ht
    · intro heq
      have := (hInv.2.1 heq).1
      rw [this] at ht
      cases ht
    · intro heq
      have := (hInv.2.2 heq).1
      rw [this] at ht
      cases ht
  | join hp hrun =>
    cases hg : c.groupErr with
    | some e =>
      have hj : joinNext c = { c with phase := .finishing (some e) } := by
        unfold joinNext; rw [hg]
      rw [hj]
      refine ⟨?_, ?_, ?_⟩ <;> intros <;> simp_all
    | none =>
      have hj : joinNext c = { c with phase := .dirPass 0 } := by
        unfold joinNext; rw [hg]
      rw [hj]
      refine ⟨?_, ?_, ?_⟩
      · intro j heq
        have hj0 : j = 0 := by
          have : Phase.dirPass 0 = Phase.dirPass j := heq
          injection this with h2
          exact h2.symm
        refine ⟨hrun, ?_⟩
        rw [hj0]
        intro k f hk
        exact absurd hk (Nat.not_lt_zero k)
      · intro heq; cases heq
      · intro heq; cases heq
  | dirstep j hp =>
    obtain ⟨hrun, hdirp⟩ := hInv.1 j hp
    unfold dirIter
    split
    next hf =>
      have hlen := entryAt_none_le env j hf
      refine ⟨?_, ?_, ?_⟩
      · intro j2 heq; cases heq
      · intro heq
        refine ⟨hrun, ?_⟩
        intro k g hk hkg hdg
        exact hdirp k g (Nat.lt_of_lt_of_le hk hlen) hkg hdg
      · intro heq; cases heq
    next f hf =>
      split
      next hd =>
        split
        next st1 hm =>
          refine ⟨?_, ?_, ?_⟩
          · intro j2 heq
            have hj2 : j2 = j + 1 := by
              have : Phase.dirPass (j + 1) = Phase.dirPass j2 := heq
              injection this with h2
              exact h2.symm
            refine ⟨hrun, ?_⟩
            rw [hj2]
            intro k g hk hkg hdg
            rcases Nat.lt_succ_iff_lt_or_eq.mp hk with hk2 | hk2
            · obtain ⟨n, hfind, hmt⟩ := hdirp k g hk2 hkg hdg
              have hne : env.pathOf g ≠ env.pathOf f :=
                hdis k j g f (Nat.ne_of_lt hk2) hkg hf hdg hd
              have hother := updateMeta_find_other env j f (env.pathOf f) c.st
                (env.pathOf g) hne
              rw [hm] at hother
              exact ⟨n, hother.trans hfind, hmt⟩
            · subst hk2
              rw [hkg] at hf
              injection hf with hgf
              subst hgf
              obtain ⟨n, hfind, hmt⟩ :=
                updateMeta_ok_mtime env k g (env.pathOf g) c.st st1 hm
              exact ⟨n, hfind, hmt⟩
          · intro heq; cases heq
          · intro heq; cases heq
        next e st1 hm =>
          refine ⟨?_, ?_, ?_⟩
          · intro j2 heq; cases heq
          · intro heq
            have : Phase.finishing (some e) = Phase.finishing none := heq
            injection this with h2
            cases h2
          · intro heq; cases heq
      next hd =>
        refine ⟨?_, ?_, ?_⟩
        · intro j2 heq
          have hj2 : j2 = j + 1 := by
            have : Phase.dirPass (j + 1) = Phase.dirPass j2 := heq
            injection this with h2
            exact h2.symm
          refine ⟨hrun, ?_⟩
          rw [hj2]
          intro k g hk hkg hdg
          rcases Nat.lt_succ_iff_lt_or_eq.mp hk with hk2 | hk2
          · exact hdirp k g hk2 hkg hdg
          · subst hk2
            rw [hkg] at hf
            injection hf with hgf
            subst hgf
            exact absurd hdg hd
        · intro heq; cases heq
        · intro heq; cases heq
  | finish e hp hrun =>
    refine ⟨?_, ?_, ?_⟩
    · intro j heq; cases heq
    · intro heq; cases heq
    · intro heq
      have : Phase.done (orElseO c.groupErr e) = Phase.done none := heq
      injection this with h2
      obtain ⟨hg, he⟩ := orElseO_eq_none c.groupErr e h2
      subst he
      obtain ⟨hr2, hdirp⟩ := hInv.2.1 hp
      exact ⟨hrun, hdirp⟩

/-- C5: with pairwise distinct directory paths, at every reachable point
inside the directory metadata pass no task is in flight (the pass starts
only after the join), and when Extract returns successfully, every
directory entry has its archived modification time on disk, even though
children were written into it after its creation. -/
theorem dir_metadata_after_join (env : Env) (st0 : St) (hdis : dirDistinct env) :
    (∀ cfg, Reach env st0 cfg → ∀ j, cfg.phase = .dirPass j → cfg.running = []) ∧
    (∀ cfg, Reach env st0 cfg → cfg.phase = .done none →
      ∀ k f, env.entryAt k = some f → f.modeType = .dir →
        ∃ n, cfg.st.fs.find (env.pathOf f) = some n ∧ n.mtime = f.modTime) := by
  have hmain : ∀ cfg, Reach env st0 cfg → C5Inv env cfg := by
    intro cfg hr
    refine reach_invariant env st0 (C5Inv env) ?_ ?_ cfg hr
    · refine ⟨?_, ?_, ?_⟩ <;> intros <;> simp_all [initCfg]
    · intro c c2 hInv hs
      exact c5_step env hdis c c2 hInv hs
  constructor
  · intro cfg hr j hp
    exact ((hmain cfg hr).1 j hp).1
  · intro cfg hr hp k f hkf hdf
    exact ((hmain cfg hr).2.2 hp).2 k f (entryAt_some_lt env k f hkf) hkf hdf

/-- Environment for the C5 witness: one directory entry with archived
time 77. -/
def envDirMt : Env :=
  { entries := [⟨strP "d", .dir, 493, 77, []⟩]
    chroot := strP "/r"
    conc := 1
    oracle := okOracle
    hook := none }

/-- The complete execution of the single-directory archive. -/
def cfgDirMtFinal : Cfg :=
  runSched envDirMt [.tick, .tick, .tick, .tick, .tick, .tick] (initCfg emptySt)

theorem envDirMt_entry_zero (m : Nat) (g : ZipEntry)
    (hm : envDirMt.entryAt m = some g) : m = 0 := by
  cases m with
  | zero => rfl
  | succ m2 => simp [Env.entryAt, envDirMt] at hm

/-- Witness for C5: the extracted directory carries the archived time 77
after the successful run. -/
theorem dir_metadata_after_join_witness :
    ∃ n, cfgDirMtFinal.st.fs.find (strP "/r/d") = some n ∧ n.mtime = 77 :=
  (dir_metadata_after_join envDirMt emptySt
      (fun j k f g hjk hj hk _ _ =>
        absurd ((envDirMt_entry_zero j f hj).trans
          (envDirMt_entry_zero k g hk).symm) hjk)).2
    cfgDirMtFinal
    (runSched_reach_init envDirMt [.tick, .tick, .tick, .tick, .tick, .tick] emptySt)
    (by decide) 0 ⟨strP "d", .dir, 493, 77, []⟩ (by decide) (by decide)

/- ===== C7: re-extraction over existing output ===== -/

theorem createFile_removes_first (env : Env) (i : Nat) (f : ZipEntry) (p : Path)
    (st st1 : St) (h : osRemove p st = (none, st1)) :
    createFile env i f p st = createFile env i f p st1 := by
  have hfind : st1.fs.find p = none := osRemove_ok_find p st st1 h
  have hrem1 : osRemove p st1 = (some .notExist, st1) := by
    unfold osRemove
    rw [hfind]
  unfold createFile
  rw [h, hrem1]
  rfl

theorem createSymlink_removes_first (env : Env) (i : Nat) (f : ZipEntry) (p : Path)
    (st st1 : St) (h : osRemove p st = (none, st1)) :
    createSymlink env i f p st = createSymlink env i f p st1 := by
  have hfind : st1.fs.find p = none := osRemove_ok_find p st st1 h
  have hrem1 : osRemove p st1 = (some .notExist, st1) := by
    unfold osRemove
    rw [hfind]
  unfold createSymlink
  rw [h, hrem1]
  rfl

/-- Invariant: no already-exists failure is ever recorded anywhere. -/
def NoExistInv (cfg : Cfg) : Prop :=
  (∀ e, cfg.groupErr = some e → e ≠ .exist) ∧
  (∀ e, cfg.phase = .finishing (some e) → e ≠ .exist) ∧
  (∀ e, cfg.phase = .done (some e) → e ≠ .exist)

theorem noexist_step (env : Env) (hne : NoExistEnv env) (c c2 : Cfg)
    (hInv : NoExistInv c) (hs : Step env c c2) : NoExistInv c2 := by
  cases hs with
  | orch i cfg2 hp hit =>
    have hspec := loopIter_spec env c i c2 hit
    refine ⟨?_, ?_, ?_⟩
    · intro e hg
      rw [hspec.1] at hg
      exact hInv.1 e hg
    · intro e hph
      exact loopIter_no_exist env c i c2 hne hit e hph
    · intro e hph
      exact absurd hph (hspec.2.2.1 (some e))
  | task t ht =>
    refine ⟨?_, ?_, ?_⟩
    · intro e hg
      have hg2 : orElseO c.groupErr (taskBody env t c.st).1 = some e := hg
      cases hgo : c.groupErr with
      | some w =>
        rw [hgo] at hg2
        have hwe : w = e := by
          have : (some w : Option GoErr) = some e := hg2
          injection this
        rw [← hwe]
        exact hInv.1 w hgo
      | none =>
        rw [hgo] at hg2
        have htb : (taskBody env t c.st).1 = some e := hg2
        intro hx
        rw [hx] at htb
        exact taskBody_no_exist env t c.st hne htb
    · intro e hph
      exact hInv.2.1 e hph
    · intro e hph
      exact hInv.2.2 e hph
  | join hp hrun =>
    cases hg : c.groupErr with
    | some w =>
      have hj : joinNext c = { c with phase := .finishing (some w) } := by
        unfold joinNext; rw [hg]
      rw [hj]
      refine ⟨?_, ?_, ?_⟩
      · intro e hg2
        exact hInv.1 e hg2
      · intro e hph
        have : Phase.finishing (some w) = Phase.finishing (some e) := hph
        injection this with h2
        injection h2 with h3
        rw [← h3]
        exact hInv.1 w hg
      · intro e hph; cases hph
    | none =>
      have hj : joinNext c = { c with phase := .dirPass 0 } := by
        unfold joinNext; rw [hg]
      rw [hj]
      refine ⟨?_, ?_, ?_⟩
      · intro e hg2
        exact hInv.1 e hg2
      · intro e hph; cases hph
      · intro e hph; cases hph
  | dirstep j hp =>
    have hspec := dirIter_spec env c j
    refine ⟨?_, ?_, ?_⟩
    · intro e hg
      rw [hspec.2.1] at hg
      exact hInv.1 e hg
    · intro e hph
      exact dirIter_no_exist env c j hne e hph
    · intro e hph
      exact absurd hph (hspec.2.2.2.1 (some e))
  | finish e2 hp hrun =>
    refine ⟨?_, ?_, ?_⟩
    · intro e hg
      exact hInv.1 e hg
    · intro e hph; cases hph
    · intro e hph
      have : Phase.done (orElseO c.groupErr e2) = Phase.done (some e) := hph
      injection this with h2
      cases hgo : c.groupErr with
      | some w =>
        rw [hgo] at h2
        have hwe : w = e := by
          have : (some w : Option GoErr) = some e := h2
          injection this
        rw [← hwe]
        exact hInv.1 w hgo
      | none =>
        rw [hgo] at h2
        have he2 : e2 = some e := h2
        rw [he2] at hp
        exact hInv.2.1 e hp

/-- C7: re-extracting into a root already holding prior output never
fails on already-exists: (1) createDirectory treats an existing node at
its destination as success and leaves it untouched; (2) and (3)
createFile and createSymlink remove a removable pre-existing destination
node first and then behave exactly as on the state with the node already
gone (their own not-found removal outcome being treated as success); and
(4) when the environment itself never reports an already-exists failure,
no Extract execution returns one. -/
theorem reextraction_tolerates_existing_output :
    (∀ (f : ZipEntry) (p : Path) (st : St) (n : Node),
      st.fs.find p = some n → createDirectory f p st = (none, st)) ∧
    (∀ (env : Env) (i : Nat) (f : ZipEntry) (p : Path) (st st1 : St),
      osRemove p st = (none, st1) →
      createFile env i f p st = createFile env i f p st1) ∧
    (∀ (env : Env) (i : Nat) (f : ZipEntry) (p : Path) (st st1 : St),
      osRemove p st = (none, st1) →
      createSymlink env i f p st = createSymlink env i f p st1) ∧
    (∀ (env : Env) (st0 : St) (cfg : Cfg) (r : GoErr),
      NoExistEnv env → Reach env st0 cfg → cfg.phase = .done (some r) →
      r ≠ .exist) := by
  refine ⟨?_, ?_, ?_, ?_⟩
  · intro f p st n hf
    exact createDirectory_exists f p st n hf
  · intro env i f p st st1 h
    exact createFile_removes_first env i f p st st1 h
  · intro env i f p st st1 h
    exact createSymlink_removes_first env i f p st st1 h
  · intro env st0 cfg r hne hr hp
    have hInv : NoExistInv cfg := by
      refine reach_invariant env st0 NoExistInv ?_ ?_ cfg hr
      · refine ⟨?_, ?_, ?_⟩ <;> intros <;> simp_all [initCfg]
      · intro c c2 hI hs
        exact noexist_step env hne c c2 hI hs
    exact hInv.2.2 r hp

/-- A root already holding the prior output: a file at /r/f and a
directory at /r/d. -/
def stPrior : St :=
  ⟨[(strP "/r/f", ⟨.file, 420, 3, none⟩), (strP "/r/d", ⟨.dir, 493, 2, none⟩)], 5⟩

/-- The prior-output state after removing the pre-existing file node. -/
def stAfterRemove : St := ⟨[(strP "/r/d", ⟨.dir, 493, 2, none⟩)], 6⟩

/-- Environment whose MkdirAll fails with io 1 for entry 0, driving a
failing execution whose returned error is not already-exists. -/
def envMkdirFail : Env :=
  { entries := [⟨strP "a", .regular, 420, 1, []⟩]
    chroot := strP "/r"
    conc := 1
    oracle := { okOracle with mkdirAllErr := fun _ => some (.io 1) }
    hook := none }

/-- The failing execution of the MkdirAll-failure archive. -/
def cfgMkdirFailFinal : Cfg := runSched envMkdirFail [.tick, .tick] (initCfg emptySt)

theorem envMkdirFail_noexist : NoExistEnv envMkdirFail := by
  refine ⟨?_, ?_, ?_, ?_, ?_, ?_, ?_, ?_, ?_⟩
  · intro i h; simp [envMkdirFail, okOracle] at h
  · intro i h; simp [envMkdirFail, okOracle] at h
  · intro i h; simp [envMkdirFail, okOracle] at h
  · intro i h; simp [envMkdirFail, okOracle] at h
  · intro i h; simp [envMkdirFail, okOracle] at h
  · intro i h; simp [envMkdirFail, okOracle] at h
  · intro b h; simp [envMkdirFail, okOracle] at h
  · intro b flds u h1 h2
    have h1b : ({ unix := none } : ExtraFields) = flds := by
      have h1c : Except.ok ({ unix := none } : ExtraFields) =
          (Except.ok flds : Except GoErr ExtraFields) := h1
      injection h1c
    rw [← h1b] at h2
    cases h2
  · intro hdl h; simp [envMkdirFail] at h

/-- Witness for C7 at concrete states: the existing directory is
tolerated, the file and symlink creations coincide with their
post-removal runs, and the failing execution returns io 1, not
already-exists. -/
theorem reextraction_tolerates_existing_output_witness :
    createDirectory ⟨strP "d", .dir, 493, 2, []⟩ (strP "/r/d") stPrior =
      (none, stPrior) ∧
    createFile envBound 0 ⟨strP "f", .regular, 420, 3, []⟩ (strP "/r/f") stPrior =
      createFile envBound 0 ⟨strP "f", .regular, 420, 3, []⟩ (strP "/r/f")
        stAfterRemove ∧
    createSymlink envBound 0 ⟨strP "f", .symlink, 511, 3, []⟩ (strP "/r/f") stPrior =
      createSymlink envBound 0 ⟨strP "f", .symlink, 511, 3, []⟩ (strP "/r/f")
        stAfterRemove ∧
    GoErr.io 1 ≠ GoErr.exist :=
  ⟨reextraction_tolerates_existing_output.1 ⟨strP "d", .dir, 493, 2, []⟩
      (strP "/r/d") stPrior ⟨.dir, 493, 2, none⟩ (by decide),
    reextraction_tolerates_existing_output.2.1 envBound 0
      ⟨strP "f", .regular, 420, 3, []⟩ (strP "/r/f") stPrior stAfterRemove
      (by decide),
    reextraction_tolerates_existing_output.2.2.1 envBound 0
      ⟨strP "f", .symlink, 511, 3, []⟩ (strP "/r/f") stPrior stAfterRemove
      (by decide),
    reextraction_tolerates_existing_output.2.2.2 envMkdirFail emptySt
      cfgMkdirFailFinal (.io 1) envMkdirFail_noexist
      (runSched_reach_init envMkdirFail [.tick, .tick] emptySt) (by decide)⟩

end Fastzip
